import Mathlib

/-!
Shallow embedding of `go.py`, a command-runner script.

The script defines `call(command)` which prints the command, spawns a
child process running it in a shell, and, if the child's exit status is
non-zero, terminates the whole program with that status via `sys.exit`;
`call` has no `return` statement, so on the zero-status path it returns
Python's `None`.  `main()` invokes `call` on two hardcoded commands in
order; a second function `ccdb()` holds two other commands but is never
invoked.  The script's only entry point runs `main()`.

The environment of a run is modelled as a function `env : Nat → Int`
giving the exit status of the i-th child process spawned.  A run is
modelled as the trace of observable events (print to stdout, spawn of a
child, exit of a child) together with the program's overall exit code.
-/

namespace GoPy

/-- Observable events of a run: a line printed to standard output, the
spawning of a child process for a command, and the termination of that
child with a given exit status. -/
inductive Event where
  | printed : String → Event
  | spawned : String → Event
  | exited  : String → Int → Event
deriving DecidableEq, Repr

/-- The control outcome of `call`: either a normal Python return (the
source has no `return` statement, so the returned value is `None`,
modelled as `none : Option Int`), or `sys.exit(code)`. -/
inductive CallResult where
  | ret  : Option Int → CallResult
  | exit : Int → CallResult
deriving DecidableEq, Repr

/-- `call(command)` from the source: print the command, spawn a child
executing it, observe the child's exit `status`; then `sys.exit(status)`
when the status is non-zero, else fall off the end (returning `None`).
The first component is the event trace of the call, the second its
control outcome. -/
def call (command : String) (status : Int) : List Event × CallResult :=
  ([Event.printed command, Event.spawned command, Event.exited command status],
   if status ≠ 0 then CallResult.exit status else CallResult.ret none)

/-- Sequential execution of a list of commands starting at spawn index
`i`: each command is handed to `call`; a `sys.exit` outcome ends the run
with that code and drops the remaining commands, a normal return
continues with the next command; the empty list of remaining commands
ends the script normally with exit code 0. -/
def runSeq (env : Nat → Int) : List String → Nat → List Event × Int
  | [], _ => ([], 0)
  | command :: rest, i =>
    let c := call command (env i)
    match c.2 with
    | CallResult.exit code => (c.1, code)
    | CallResult.ret _ =>
      let r := runSeq env rest (i + 1)
      (c.1 ++ r.1, r.2)

/-- The two commands hardcoded in `main`. -/
def mainCommands : List String :=
  ["go install -i github.com/mohanson/acdb", "go test -v"]

/-- The two commands hardcoded in the (never invoked) `ccdb` function. -/
def ccdbCommands : List String :=
  ["go install -i github.com/mohanson/acdb/ccdb/cmd/ccdb", "go test -v ./ccdb"]

/-- `main()` from the source: run the two hardcoded commands in order. -/
def main (env : Nat → Int) : List Event × Int :=
  runSeq env mainCommands 0

/-- `ccdb()` from the source: run its two hardcoded commands in order.
Defined in the script but never invoked. -/
def ccdb (env : Nat → Int) : List Event × Int :=
  runSeq env ccdbCommands 0

/-- The script entry point (`if __name__ == '__main__': main()`): the
command line `argv` is never read, only `main()` is invoked. -/
def program (argv : List String) (env : Nat → Int) : List Event × Int :=
  main env

/-- Recognizer for printed events. -/
def isPrinted : Event → Bool
  | Event.printed _ => true
  | _ => false

/-- Recognizer for spawned events. -/
def isSpawned : Event → Bool
  | Event.spawned _ => true
  | _ => false

/-- How many commands of a block of `n` commands starting at spawn index
`i` are attempted: all of them when every status is zero, otherwise all
commands up to and including the first with a non-zero status. -/
def attemptCount (env : Nat → Int) : Nat → Nat → Nat
  | _, 0 => 0
  | i, n + 1 => if env i = 0 then attemptCount env (i + 1) n + 1 else 1

lemma runSeq_nil (env : Nat → Int) (i : Nat) : runSeq env [] i = ([], 0) := rfl

lemma runSeq_cons_zero (env : Nat → Int) (c : String) (cs : List String)
    (i : Nat) (h : env i = 0) :
    runSeq env (c :: cs) i =
      ((call c (env i)).1 ++ (runSeq env cs (i + 1)).1, (runSeq env cs (i + 1)).2) := by
  simp [runSeq, call, h]

lemma runSeq_cons_ne (env : Nat → Int) (c : String) (cs : List String)
    (i : Nat) (h : env i ≠ 0) :
    runSeq env (c :: cs) i = ((call c (env i)).1, env i) := by
  simp [runSeq, call, h]

lemma printed_mem_commands (env : Nat → Int) (cs : List String) (i : Nat)
    (c : String) (h : Event.printed c ∈ (runSeq env cs i).1) : c ∈ cs := by
  induction cs generalizing i with
  | nil => simp [runSeq_nil] at h
  | cons c₀ cs ih =>
    by_cases h0 : env i = 0
    · rw [runSeq_cons_zero env c₀ cs i h0] at h
      simp only [call, List.mem_append, List.mem_cons, List.not_mem_nil,
        or_false] at h
      rcases h with (h | h | h) | h
      · simp [Event.printed.injEq] at h
        simp [h]
      · simp at h
      · simp at h
      · exact List.mem_cons_of_mem _ (ih (i + 1) h)
    · rw [runSeq_cons_ne env c₀ cs i h0] at h
      simp only [call, List.mem_cons, List.not_mem_nil, or_false] at h
      rcases h with h | h | h
      · simp [Event.printed.injEq] at h
        simp [h]
      · simp at h
      · simp at h

lemma spawned_mem_commands (env : Nat → Int) (cs : List String) (i : Nat)
    (c : String) (h : Event.spawned c ∈ (runSeq env cs i).1) : c ∈ cs := by
  induction cs generalizing i with
  | nil => simp [runSeq_nil] at h
  | cons c₀ cs ih =>
    by_cases h0 : env i = 0
    · rw [runSeq_cons_zero env c₀ cs i h0] at h
      simp only [call, List.mem_append, List.mem_cons, List.not_mem_nil,
        or_false] at h
      rcases h with (h | h | h) | h
      · simp at h
      · simp [Event.spawned.injEq] at h
        simp [h]
      · simp at h
      · exact List.mem_cons_of_mem _ (ih (i + 1) h)
    · rw [runSeq_cons_ne env c₀ cs i h0] at h
      simp only [call, List.mem_cons, List.not_mem_nil, or_false] at h
      rcases h with h | h | h
      · simp at h
      · simp [Event.spawned.injEq] at h
        simp [h]
      · simp at h

/-- C1: for every command whose child exits with a non-zero status, the
run terminates at once with that status: the trace of the run from that
command on consists only of that command's print, spawn and exit events,
and the overall exit code is the child's status, so no subsequent
command in the sequence is executed. -/
theorem call_nonzero_aborts (env : Nat → Int) (c : String) (cs : List String)
    (i : Nat) (h : env i ≠ 0) :
    runSeq env (c :: cs) i =
      ([Event.printed c, Event.spawned c, Event.exited c (env i)], env i) := by
  rw [runSeq_cons_ne env c cs i h]
  rfl

theorem call_nonzero_aborts_witness :
    runSeq (fun _ => (1 : Int))
        ("go install -i github.com/mohanson/acdb" :: ["go test -v"]) 0 =
      ([Event.printed "go install -i github.com/mohanson/acdb",
        Event.spawned "go install -i github.com/mohanson/acdb",
        Event.exited "go install -i github.com/mohanson/acdb" 1], 1) :=
  call_nonzero_aborts (fun _ => 1) "go install -i github.com/mohanson/acdb"
    ["go test -v"] 0 (by decide)

/-- C2 counterexample: `call` does not return the child's exit status.
The source `call` has no `return` statement, so on a zero status it
returns Python's `None` (modelled `CallResult.ret none`), which is not
the value `0` (`CallResult.ret (some 0)`) the claim asserts. -/
theorem call_return_value_counterexample :
    (call "go test -v" 0).2 = CallResult.ret none ∧
      (call "go test -v" 0).2 ≠ CallResult.ret (some 0) := by
  constructor
  · rfl
  · decide

/-- C2 (amended): `call` never returns the child's exit status: when the
child exits with status 0 it returns `None` (no value) and execution
proceeds to the next command without terminating the program; when the
status is non-zero it does not return at all but exits the program with
that status. -/
theorem call_returns_none_and_proceeds (env : Nat → Int) (c : String)
    (cs : List String) (i : Nat) (s : Int) :
    (s = 0 → (call c s).2 = CallResult.ret none) ∧
    (s ≠ 0 → (call c s).2 = CallResult.exit s) ∧
    (env i = 0 →
      runSeq env (c :: cs) i =
        ((call c 0).1 ++ (runSeq env cs (i + 1)).1, (runSeq env cs (i + 1)).2)) := by
  refine ⟨fun h => ?_, fun h => ?_, fun h => ?_⟩
  · simp [call, h]
  · simp [call, h]
  · rw [runSeq_cons_zero env c cs i h, h]

theorem call_returns_none_and_proceeds_witness :
    (call "go test -v" 0).2 = CallResult.ret none ∧
    (call "go test -v" 1).2 = CallResult.exit 1 ∧
    runSeq (fun _ => (0 : Int)) ("go test -v" :: []) 0 =
      ((call "go test -v" 0).1 ++ (runSeq (fun _ => (0 : Int)) [] 1).1,
       (runSeq (fun _ => (0 : Int)) [] 1).2) :=
  ⟨(call_returns_none_and_proceeds (fun _ => 0) "go test -v" [] 0 0).1 rfl,
   (call_returns_none_and_proceeds (fun _ => 0) "go test -v" [] 0 1).2.1 (by decide),
   (call_returns_none_and_proceeds (fun _ => 0) "go test -v" [] 0 0).2.2 rfl⟩

/-- C3: the overall exit code is 0 when every command's child exits with
status 0, and otherwise equals the exit status of the first command in
the sequence whose child exited non-zero. -/
theorem exit_code_first_failure (env : Nat → Int) (cs : List String) (i : Nat) :
    ((∀ j, j < cs.length → env (i + j) = 0) → (runSeq env cs i).2 = 0) ∧
    (∀ j, j < cs.length → env (i + j) ≠ 0 →
      (∀ k, k < j → env (i + k) = 0) → (runSeq env cs i).2 = env (i + j)) := by
  induction cs generalizing i with
  | nil =>
    refine ⟨fun _ => rfl, fun j hj => ?_⟩
    simp at hj
  | cons c cs ih =>
    constructor
    · intro hall
      have h0 : env i = 0 := by simpa using hall 0 (by simp)
      rw [runSeq_cons_zero env c cs i h0]
      refine (ih (i + 1)).1 fun j hj => ?_
      have := hall (j + 1) (by simpa using hj)
      simpa [Nat.add_assoc, Nat.add_comm 1 j] using this
    · intro j hj hne hk
      cases j with
      | zero =>
        have h0 : env i ≠ 0 := by simpa using hne
        rw [runSeq_cons_ne env c cs i h0]
        simp
      | succ j =>
        have h0 : env i = 0 := by simpa using hk 0 (Nat.succ_pos j)
        rw [runSeq_cons_zero env c cs i h0]
        have e : i + (j + 1) = i + 1 + j := by omega
        rw [e] at hne ⊢
        refine (ih (i + 1)).2 j (by simpa using hj) hne fun k hkj => ?_
        have := hk (k + 1) (by omega)
        simpa [Nat.add_assoc, Nat.add_comm 1 k] using this

theorem exit_code_first_failure_witness :
    (runSeq (fun _ => (0 : Int)) mainCommands 0).2 = 0 ∧
    (runSeq (fun j => if j = 0 then (1 : Int) else 0) mainCommands 0).2 =
      (fun j => if j = 0 then (1 : Int) else 0) (0 + 0) :=
  ⟨(exit_code_first_failure (fun _ => 0) mainCommands 0).1 (by decide),
   (exit_code_first_failure (fun j => if j = 0 then 1 else 0) mainCommands 0).2
     0 (by decide) (by decide) (by decide)⟩

/-- C4: the audit line for a command always precedes that command's
execution: wherever the trace of a run contains a spawn event for a
command, a print event for that command's text occurs strictly earlier
in the trace. -/
theorem printed_before_spawned (env : Nat → Int) (cs : List String) (i : Nat)
    (l₁ l₂ : List Event) (c : String)
    (h : (runSeq env cs i).1 = l₁ ++ Event.spawned c :: l₂) :
    Event.printed c ∈ l₁ := by
  induction cs generalizing i l₁ l₂ with
  | nil =>
    rw [runSeq_nil] at h
    simp at h
  | cons c₀ cs ih =>
    by_cases h0 : env i = 0
    · rw [runSeq_cons_zero env c₀ cs i h0] at h
      simp only [call, List.cons_append, List.nil_append] at h
      rcases l₁ with _ | ⟨a, _ | ⟨b, _ | ⟨d, l₁'⟩⟩⟩
      · simp at h
      · simp only [List.cons_append, List.nil_append, List.cons.injEq,
          Event.spawned.injEq] at h
        obtain ⟨ha, hc, -⟩ := h
        subst hc
        simp [← ha]
      · simp at h
      · simp only [List.cons_append, List.cons.injEq] at h
        obtain ⟨-, -, -, hrest⟩ := h
        exact List.mem_cons_of_mem _ (List.mem_cons_of_mem _
          (List.mem_cons_of_mem _ (ih (i + 1) l₁' l₂ hrest)))
    · rw [runSeq_cons_ne env c₀ cs i h0] at h
      simp only [call] at h
      rcases l₁ with _ | ⟨a, _ | ⟨b, _ | ⟨d, l₁'⟩⟩⟩
      · simp at h
      · simp only [List.cons_append, List.nil_append, List.cons.injEq,
          Event.spawned.injEq] at h
        obtain ⟨ha, hc, -⟩ := h
        subst hc
        simp [← ha]
      · simp at h
      · simp at h

theorem printed_before_spawned_witness :
    Event.printed "go test -v" ∈
      [Event.printed "go install -i github.com/mohanson/acdb",
       Event.spawned "go install -i github.com/mohanson/acdb",
       Event.exited "go install -i github.com/mohanson/acdb" 0,
       Event.printed "go test -v"] :=
  printed_before_spawned (fun _ => 0) mainCommands 0
    [Event.printed "go install -i github.com/mohanson/acdb",
     Event.spawned "go install -i github.com/mohanson/acdb",
     Event.exited "go install -i github.com/mohanson/acdb" 0,
     Event.printed "go test -v"]
    [Event.exited "go test -v" 0] "go test -v" (by decide)

/-- C6: commands execute sequentially in the order listed and each call
blocks until its child terminates: a spawn event is immediately followed
by that same command's child-exit event, and every command spawned
earlier in the trace already has its child-exit event earlier in the
trace, so no child is spawned before all earlier children have exited. -/
theorem sequential_execution (env : Nat → Int) (cs : List String) (i : Nat)
    (l₁ l₂ : List Event) (c : String)
    (h : (runSeq env cs i).1 = l₁ ++ Event.spawned c :: l₂) :
    (∃ s l₂', l₂ = Event.exited c s :: l₂') ∧
    (∀ c', Event.spawned c' ∈ l₁ → ∃ s, Event.exited c' s ∈ l₁) := by
  induction cs generalizing i l₁ l₂ with
  | nil =>
    rw [runSeq_nil] at h
    simp at h
  | cons c₀ cs ih =>
    by_cases h0 : env i = 0
    · rw [runSeq_cons_zero env c₀ cs i h0] at h
      simp only [call, List.cons_append, List.nil_append] at h
      rcases l₁ with _ | ⟨a, _ | ⟨b, _ | ⟨d, l₁'⟩⟩⟩
      · simp at h
      · simp only [List.cons_append, List.nil_append, List.cons.injEq,
          Event.spawned.injEq] at h
        obtain ⟨ha, hc, hl⟩ := h
        subst hc
        refine ⟨⟨env i, (runSeq env cs (i + 1)).1, hl.symm⟩, ?_⟩
        intro c' hc'
        rw [List.mem_singleton] at hc'
        rw [← ha] at hc'
        exact absurd hc' (by simp)
      · simp at h
      · simp only [List.cons_append, List.cons.injEq] at h
        obtain ⟨ha, hb, hd, hrest⟩ := h
        obtain ⟨hexit, hprev⟩ := ih (i + 1) l₁' l₂ hrest
        refine ⟨hexit, ?_⟩
        intro c' hc'
        simp only [List.mem_cons] at hc'
        rcases hc' with hc' | hc' | hc' | hc'
        · rw [← ha] at hc'
          exact absurd hc' (by simp)
        · rw [← hb] at hc'
          obtain rfl : c' = c₀ := by simpa [Event.spawned.injEq] using hc'
          refine ⟨env i, ?_⟩
          rw [hd]
          simp
        · rw [← hd] at hc'
          exact absurd hc' (by simp)
        · obtain ⟨s, hs⟩ := hprev c' hc'
          exact ⟨s, by simp [hs]⟩
    · rw [runSeq_cons_ne env c₀ cs i h0] at h
      simp only [call] at h
      rcases l₁ with _ | ⟨a, _ | ⟨b, _ | ⟨d, l₁'⟩⟩⟩
      · simp at h
      · simp only [List.cons_append, List.nil_append, List.cons.injEq,
          Event.spawned.injEq] at h
        obtain ⟨ha, hc, hl⟩ := h
        subst hc
        refine ⟨⟨env i, [], hl.symm⟩, ?_⟩
        intro c' hc'
        rw [List.mem_singleton] at hc'
        rw [← ha] at hc'
        exact absurd hc' (by simp)
      · simp at h
      · simp at h

theorem sequential_execution_witness :
    ([Event.exited "go test -v" 0] = Event.exited "go test -v" 0 :: ([] : List Event)) ∧
    (∃ s, Event.exited "go install -i github.com/mohanson/acdb" s ∈
      [Event.printed "go install -i github.com/mohanson/acdb",
       Event.spawned "go install -i github.com/mohanson/acdb",
       Event.exited "go install -i github.com/mohanson/acdb" 0,
       Event.printed "go test -v"]) :=
  by
    have h := sequential_execution (fun _ => 0) mainCommands 0
      [Event.printed "go install -i github.com/mohanson/acdb",
       Event.spawned "go install -i github.com/mohanson/acdb",
       Event.exited "go install -i github.com/mohanson/acdb" 0,
       Event.printed "go test -v"]
      [Event.exited "go test -v" 0] "go test -v" (by decide)
    exact ⟨rfl, h.2 "go install -i github.com/mohanson/acdb" (by decide)⟩

/-- C5: the program takes no input: the command line is never read (runs
with different `argv` are identical), `main` runs the fixed hardcoded
list of commands, and every command ever spawned on any invocation
comes from that fixed list. -/
theorem main_fixed_commands :
    (∀ a₁ a₂ env, program a₁ env = program a₂ env) ∧
    mainCommands = ["go install -i github.com/mohanson/acdb", "go test -v"] ∧
    (∀ env, main env = runSeq env mainCommands 0) ∧
    (∀ a env c, Event.spawned c ∈ (program a env).1 → c ∈ mainCommands) :=
  ⟨fun _ _ _ => rfl, rfl, fun _ => rfl,
   fun _ env c h => spawned_mem_commands env mainCommands 0 c h⟩

theorem main_fixed_commands_witness :
    program ["--verbose"] (fun _ => (0 : Int)) = program [] (fun _ => (0 : Int)) ∧
    "go install -i github.com/mohanson/acdb" ∈ mainCommands :=
  ⟨main_fixed_commands.1 ["--verbose"] [] (fun _ => 0),
   main_fixed_commands.2.2.2 [] (fun _ => 0)
     "go install -i github.com/mohanson/acdb" (by decide)⟩

/-- C7: the program writes nothing to standard output beyond the command
texts: every printed line of a run is the text of a command of the
sequence, and once a child has exited with a non-zero status the trace
ends at once, so no additional diagnostic message follows a failure. -/
theorem no_extra_output (env : Nat → Int) (cs : List String) (i : Nat) :
    (∀ c, Event.printed c ∈ (runSeq env cs i).1 → c ∈ cs) ∧
    (∀ l₁ l₂ c s, (runSeq env cs i).1 = l₁ ++ Event.exited c s :: l₂ →
      s ≠ 0 → l₂ = []) := by
  refine ⟨fun c h => printed_mem_commands env cs i c h, ?_⟩
  induction cs generalizing i with
  | nil =>
    intro l₁ l₂ c s h
    rw [runSeq_nil] at h
    simp at h
  | cons c₀ cs ih =>
    intro l₁ l₂ c s h hs
    by_cases h0 : env i = 0
    · rw [runSeq_cons_zero env c₀ cs i h0] at h
      simp only [call, List.cons_append, List.nil_append] at h
      rcases l₁ with _ | ⟨a, _ | ⟨b, _ | ⟨d, l₁'⟩⟩⟩
      · simp at h
      · simp at h
      · simp only [List.cons_append, List.nil_append, List.cons.injEq,
          Event.exited.injEq] at h
        obtain ⟨-, -, ⟨-, hsz⟩, -⟩ := h
        exact absurd (hsz ▸ h0) hs
      · simp only [List.cons_append, List.cons.injEq] at h
        obtain ⟨-, -, -, hrest⟩ := h
        exact ih (i + 1) l₁' l₂ c s hrest hs
    · rw [runSeq_cons_ne env c₀ cs i h0] at h
      simp only [call] at h
      rcases l₁ with _ | ⟨a, _ | ⟨b, _ | ⟨d, l₁'⟩⟩⟩
      · simp at h
      · simp at h
      · simp only [List.cons_append, List.nil_append, List.cons.injEq] at h
        exact h.2.2.2.symm
      · simp at h

theorem no_extra_output_witness :
    "go install -i github.com/mohanson/acdb" ∈ mainCommands ∧
    ([] : List Event) = [] :=
  ⟨(no_extra_output (fun _ => (0 : Int)) mainCommands 0).1
     "go install -i github.com/mohanson/acdb" (by decide),
   (no_extra_output (fun _ => (1 : Int)) mainCommands 0).2
     [Event.printed "go install -i github.com/mohanson/acdb",
      Event.spawned "go install -i github.com/mohanson/acdb"]
     [] "go install -i github.com/mohanson/acdb" 1 (by decide) (by decide)⟩

/-- C8: running the script executes only `main`'s two hardcoded
commands; the commands of the never-invoked `ccdb` function are never
spawned on any run, whatever the command line and the children's exit
statuses. -/
theorem ccdb_never_invoked (a : List String) (env : Nat → Int) (c : String) :
    (Event.spawned c ∈ (program a env).1 → c ∈ mainCommands) ∧
    (c ∈ ccdbCommands → Event.spawned c ∉ (program a env).1) := by
  constructor
  · intro h
    exact spawned_mem_commands env mainCommands 0 c h
  · intro hc h
    have hm : c ∈ mainCommands := spawned_mem_commands env mainCommands 0 c h
    simp only [ccdbCommands, List.mem_cons, List.not_mem_nil, or_false] at hc
    rcases hc with rfl | rfl
    · exact absurd hm (by decide)
    · exact absurd hm (by decide)

theorem ccdb_never_invoked_witness :
    Event.spawned "go test -v ./ccdb" ∉
      (program [] (fun _ => (0 : Int))).1 :=
  (ccdb_never_invoked [] (fun _ => 0) "go test -v ./ccdb").2 (by decide)

/-- C9: the program is deterministic with respect to its environment:
two runs whose child processes return the same exit statuses produce
the same event trace (in particular the same printed lines) and the
same overall exit code, whatever the command lines of the two runs. -/
theorem deterministic_runs (env₁ env₂ : Nat → Int) (a₁ a₂ : List String)
    (cs : List String) (i : Nat) :
    ((∀ j, j < cs.length → env₁ (i + j) = env₂ (i + j)) →
      runSeq env₁ cs i = runSeq env₂ cs i) ∧
    ((∀ j, j < mainCommands.length → env₁ j = env₂ j) →
      program a₁ env₁ = program a₂ env₂) := by
  have key : ∀ (cs : List String) (i : Nat),
      (∀ j, j < cs.length → env₁ (i + j) = env₂ (i + j)) →
      runSeq env₁ cs i = runSeq env₂ cs i := by
    intro cs
    induction cs with
    | nil => intro i _; rfl
    | cons c cs ih =>
      intro i h
      have h0 : env₁ i = env₂ i := by simpa using h 0 (by simp)
      have hrest : ∀ j, j < cs.length → env₁ (i + 1 + j) = env₂ (i + 1 + j) := by
        intro j hj
        have := h (j + 1) (by simpa using hj)
        have e : i + (j + 1) = i + 1 + j := by omega
        rwa [e] at this
      by_cases hz : env₁ i = 0
      · rw [runSeq_cons_zero env₁ c cs i hz, runSeq_cons_zero env₂ c cs i (h0 ▸ hz),
          ih (i + 1) hrest, h0]
      · rw [runSeq_cons_ne env₁ c cs i hz, runSeq_cons_ne env₂ c cs i (h0 ▸ hz), h0]
  refine ⟨key cs i, fun h => ?_⟩
  show main env₁ = main env₂
  exact key mainCommands 0 fun j hj => by simpa using h j hj

theorem deterministic_runs_witness :
    runSeq (fun _ => (0 : Int)) mainCommands 0 =
      runSeq (fun j => if j < 5 then (0 : Int) else 7) mainCommands 0 ∧
    program ["a"] (fun _ => (0 : Int)) =
      program [] (fun j => if j < 5 then (0 : Int) else 7) :=
  ⟨(deterministic_runs (fun _ => 0) (fun j => if j < 5 then 0 else 7)
      ["a"] [] mainCommands 0).1 (by decide),
   (deterministic_runs (fun _ => 0) (fun j => if j < 5 then 0 else 7)
      ["a"] [] mainCommands 0).2 (by decide)⟩

lemma attemptCount_all_zero (env : Nat → Int) (n i : Nat)
    (h : ∀ j, j < n → env (i + j) = 0) : attemptCount env i n = n := by
  induction n generalizing i with
  | zero => rfl
  | succ n ih =>
    have h0 : env i = 0 := by simpa using h 0 (Nat.succ_pos n)
    rw [attemptCount, if_pos h0, ih (i + 1) fun j hj => ?_]
    have := h (j + 1) (by omega)
    have e : i + (j + 1) = i + 1 + j := by omega
    rwa [e] at this

/-- C10: every attempted command is printed exactly once: the number of
printed lines equals the number of children spawned and both equal the
number of commands attempted, which on a fully successful run is the
whole list, and otherwise everything up to and including the first
failing command. -/
theorem printed_count_eq_attempts (env : Nat → Int) (cs : List String) (i : Nat) :
    ((runSeq env cs i).1.countP isPrinted) = attemptCount env i cs.length ∧
    ((runSeq env cs i).1.countP isSpawned) = attemptCount env i cs.length ∧
    ((∀ j, j < cs.length → env (i + j) = 0) →
      attemptCount env i cs.length = cs.length) := by
  refine ⟨?_, ?_, fun h => attemptCount_all_zero env cs.length i h⟩
  · induction cs generalizing i with
    | nil => rfl
    | cons c cs ih =>
      by_cases h0 : env i = 0
      · rw [runSeq_cons_zero env c cs i h0]
        simp only [call, List.countP_append, List.length_cons, attemptCount,
          if_pos h0]
        rw [ih (i + 1)]
        simp [List.countP_cons, isPrinted, Nat.add_comm]
      · rw [runSeq_cons_ne env c cs i h0]
        simp only [call, List.length_cons, attemptCount, if_neg h0]
        simp [List.countP_cons, isPrinted]
  · induction cs generalizing i with
    | nil => rfl
    | cons c cs ih =>
      by_cases h0 : env i = 0
      · rw [runSeq_cons_zero env c cs i h0]
        simp only [call, List.countP_append, List.length_cons, attemptCount,
          if_pos h0]
        rw [ih (i + 1)]
        simp [List.countP_cons, isSpawned, Nat.add_comm]
      · rw [runSeq_cons_ne env c cs i h0]
        simp only [call, List.length_cons, attemptCount, if_neg h0]
        simp [List.countP_cons, isSpawned]

theorem printed_count_eq_attempts_witness :
    ((runSeq (fun _ => (1 : Int)) mainCommands 0).1.countP isPrinted) =
      attemptCount (fun _ => (1 : Int)) 0 mainCommands.length ∧
    attemptCount (fun _ => (0 : Int)) 0 mainCommands.length =
      mainCommands.length :=
  ⟨(printed_count_eq_attempts (fun _ => 1) mainCommands 0).1,
   (printed_count_eq_attempts (fun _ => 0) mainCommands 0).2.2 (by decide)⟩

end GoPy
